import Mathlib

/-!
# Verification of the pingco VLESS/VMESS config pipeline

A shallow embedding of the core of `pingco.py` (config normalization and
deduplication, nested base64 decoding, latency ranking, VMESS/VLESS host
extraction, the external proxy-process lifecycle, and the socket-factory
substitution used to route HTTP calls through a SOCKS proxy), together
with proofs of the documented properties.

Python strings are modelled as lists of Unicode code points (`List Nat`),
byte strings as lists of byte values (`List Nat`, each `< 256`).  Stateful
operations (process launch, temp files, the global socket factory) are
modelled by explicit state passing; environment outcomes that the code
itself branches on (binary found, port ready, request failure, alarm
timeout) are explicit boolean/option parameters.
-/

namespace Pingco

/-! ## Python string model -/

/-- A Python `str`: a sequence of Unicode code points. -/
abbrev PyStr := List Nat

/-- A Python `bytes` value: a sequence of byte values (each `< 256`). -/
abbrev PyBytes := List Nat

/-- Lift a Lean string literal to its code-point sequence. -/
def pys (s : String) : PyStr := s.data.map Char.toNat

/-- The characters removed by Python's `str.strip()`:
space, tab, newline, carriage return, vertical tab, form feed. -/
def isPySpace (v : Nat) : Bool :=
  v = 32 || v = 9 || v = 10 || v = 13 || v = 11 || v = 12

/-- Python `str.strip()`: drop leading and trailing whitespace. -/
def pyStrip (s : PyStr) : PyStr :=
  List.rdropWhile isPySpace (List.dropWhile isPySpace s)

/-- Python `str.startswith(pat)`. -/
def startsWithPat (pat s : PyStr) : Bool := pat.isPrefixOf s

/-! ## ConfigUtils (src/pingco.py lines 87-95) -/

/-- `ConfigUtils.normalize_config`: `config.strip()`. -/
def normalize_config (c : PyStr) : PyStr := pyStrip c

/-- `ConfigUtils.is_valid_config`: `config.startswith(('vless://', 'vmess://'))`. -/
def is_valid_config (c : PyStr) : Bool :=
  startsWithPat (pys "vless://") c || startsWithPat (pys "vmess://") c

/-- The guard of the loop body of `ConfigProcessor.remove_duplicates`:
`if normalized and ConfigUtils.is_valid_config(normalized)` (a Python
string is truthy iff nonempty). -/
def keepP (n : PyStr) : Bool := !n.isEmpty && is_valid_config n

/-- Loop of `ConfigProcessor.remove_duplicates` (lines 326-336): `seen` is
the set of already-emitted normalized configs, the result is the `unique`
list being appended to. -/
def removeDupGo (seen : List PyStr) : List PyStr → List PyStr
  | [] => []
  | c :: rest =>
    if keepP (normalize_config c) then
      if normalize_config c ∈ seen then removeDupGo seen rest
      else normalize_config c :: removeDupGo (normalize_config c :: seen) rest
    else removeDupGo seen rest

/-- `ConfigProcessor.remove_duplicates`. -/
def remove_duplicates (configs : List PyStr) : List PyStr := removeDupGo [] configs

/-- The normalized-and-filtered input lines, in input order (what survives
the validity guard of `remove_duplicates` before duplicate removal). -/
def validNorm (configs : List PyStr) : List PyStr :=
  (configs.map normalize_config).filter keepP

/-- Specification-style first-occurrence deduplication: keep the first
occurrence of each string, drop later identical ones. -/
def keepFirst : List PyStr → List PyStr
  | [] => []
  | x :: xs => x :: keepFirst (xs.filter (fun y => decide (y ≠ x)))
termination_by l => l.length
decreasing_by
  simp only [List.length_cons]
  exact Nat.lt_succ_of_le (List.length_filter_le _ _)

/-! ## UTF-8 codec (Python `bytes.decode` / `str.encode`) -/

/-- A valid Unicode scalar value: below `0x110000` and not a surrogate. -/
def ValidCp (v : Nat) : Prop := v < 0x110000 ∧ ¬(0xD800 ≤ v ∧ v ≤ 0xDFFF)

instance (v : Nat) : Decidable (ValidCp v) := by unfold ValidCp; infer_instance

/-- One step of UTF-8 decoding: given the lead byte `b` and the remaining
bytes, return the decoded code point (or `none` for an invalid or
truncated sequence) and the unconsumed rest.  The continuation-byte
ranges per lead byte implement the standard UTF-8 validity automaton
(no overlong forms, no surrogates, nothing above `0x10FFFF`). -/
def u8Step (b : Nat) (bs : List Nat) : Option Nat × List Nat :=
  if b < 0x80 then (some b, bs)
  else if 0xC2 ≤ b ∧ b ≤ 0xDF then
    match bs with
    | b2 :: rest =>
      if 0x80 ≤ b2 ∧ b2 ≤ 0xBF then (some ((b - 0xC0) * 64 + (b2 - 0x80)), rest)
      else (none, b2 :: rest)
    | [] => (none, [])
  else if 0xE0 ≤ b ∧ b ≤ 0xEF then
    match bs with
    | b2 :: b3 :: rest =>
      if ((b = 0xE0 ∧ 0xA0 ≤ b2 ∧ b2 ≤ 0xBF) ∨
          (b = 0xED ∧ 0x80 ≤ b2 ∧ b2 ≤ 0x9F) ∨
          (b ≠ 0xE0 ∧ b ≠ 0xED ∧ 0x80 ≤ b2 ∧ b2 ≤ 0xBF)) ∧ (0x80 ≤ b3 ∧ b3 ≤ 0xBF) then
        (some ((b - 0xE0) * 4096 + (b2 - 0x80) * 64 + (b3 - 0x80)), rest)
      else (none, b2 :: b3 :: rest)
    | other => (none, other)
  else if 0xF0 ≤ b ∧ b ≤ 0xF4 then
    match bs with
    | b2 :: b3 :: b4 :: rest =>
      if ((b = 0xF0 ∧ 0x90 ≤ b2 ∧ b2 ≤ 0xBF) ∨
          (b = 0xF4 ∧ 0x80 ≤ b2 ∧ b2 ≤ 0x8F) ∨
          (b ≠ 0xF0 ∧ b ≠ 0xF4 ∧ 0x80 ≤ b2 ∧ b2 ≤ 0xBF)) ∧
          (0x80 ≤ b3 ∧ b3 ≤ 0xBF) ∧ (0x80 ≤ b4 ∧ b4 ≤ 0xBF) then
        (some ((b - 0xF0) * 262144 + (b2 - 0x80) * 4096 + (b3 - 0x80) * 64 + (b4 - 0x80)), rest)
      else (none, b2 :: b3 :: b4 :: rest)
    | other => (none, other)
  else (none, bs)

/-- `bytes.decode('utf-8', errors='ignore')`, fuel-indexed (any fuel at
least the byte count gives the same answer): invalid sequences are
dropped — the offending lead byte is skipped and decoding resumes. -/
def u8Ignore : Nat → List Nat → List Nat
  | 0, _ => []
  | _, [] => []
  | fuel + 1, b :: bs =>
    match u8Step b bs with
    | (some v, rest) => v :: u8Ignore fuel rest
    | (none, _) => u8Ignore fuel bs

/-- `bytes.decode('utf-8', errors='ignore')`. -/
def utf8DecodeIgnore (bs : PyBytes) : PyStr := u8Ignore bs.length bs

/-- Strict `bytes.decode('utf-8')`, fuel-indexed: an invalid or truncated
sequence raises `UnicodeDecodeError`, modelled as `none`. -/
def u8Strict : Nat → List Nat → Option (List Nat)
  | 0, l => if l.isEmpty then some [] else none
  | _, [] => some []
  | fuel + 1, b :: bs =>
    match u8Step b bs with
    | (some v, rest) => (u8Strict fuel rest).map (fun t => v :: t)
    | (none, _) => none

/-- Strict `bytes.decode('utf-8')`. -/
def utf8Decode (bs : PyBytes) : Option PyStr := u8Strict bs.length bs

/-- `str.encode('utf-8')` of a single code point. -/
def utf8EncodeChar (v : Nat) : List Nat :=
  if v < 0x80 then [v]
  else if v < 0x800 then [0xC0 + v / 64, 0x80 + v % 64]
  else if v < 0x10000 then [0xE0 + v / 4096, 0x80 + v / 64 % 64, 0x80 + v % 64]
  else [0xF0 + v / 262144, 0x80 + v / 4096 % 64, 0x80 + v / 64 % 64, 0x80 + v % 64]

/-- `str.encode('utf-8')`. -/
def utf8Encode (s : PyStr) : PyBytes := (s.map utf8EncodeChar).flatten

/-! ## Base64 (Python `base64.b64decode` / `b64encode`) -/

/-- Is `v` a base64 alphabet character (`A-Z`, `a-z`, `0-9`, `+`, `/`)? -/
def isB64Char (v : Nat) : Bool :=
  (65 ≤ v && v ≤ 90) || (97 ≤ v && v ≤ 122) || (48 ≤ v && v ≤ 57) || v == 43 || v == 47

/-- The 6-bit value of a base64 alphabet character. -/
def b64Val (v : Nat) : Option Nat :=
  if 65 ≤ v ∧ v ≤ 90 then some (v - 65)
  else if 97 ≤ v ∧ v ≤ 122 then some (v - 71)
  else if 48 ≤ v ∧ v ≤ 57 then some (v + 4)
  else if v = 43 then some 62
  else if v = 47 then some 63
  else none

/-- Reassemble bytes from 6-bit values: quads give three bytes; a
leftover of two or three values gives one or two bytes; a leftover of a
single value is `binascii.Error` (`none`), as in CPython's non-strict
`a2b_base64`. -/
def b64Chunks : List Nat → Option (List Nat)
  | [] => some []
  | [_] => none
  | [a, b] => some [a * 4 + b / 16]
  | [a, b, c] => some [a * 4 + b / 16, b % 16 * 16 + c / 4]
  | a :: b :: c :: d :: rest =>
    (b64Chunks rest).map
      (fun t => (a * 4 + b / 16) :: (b % 16 * 16 + c / 4) :: (c % 4 * 64 + d) :: t)

/-- `base64.b64decode` in its default non-strict mode, as called by the
program: characters outside the alphabet are discarded, the data
characters before the first padding byte are decoded, and incorrect
padding raises (`none`). -/
def b64decode (l : PyStr) : Option PyBytes :=
  b64Chunks ((l.takeWhile (fun v => !(v == 61))).filterMap b64Val)

/-- The base64 alphabet character of a 6-bit value. -/
def b64Char (v : Nat) : Nat :=
  if v < 26 then v + 65
  else if v < 52 then v + 71
  else if v < 62 then v - 4
  else if v = 62 then 43
  else 47

/-- `base64.b64encode` (used to build concrete `vmess://` payloads). -/
def b64encode : List Nat → List Nat
  | [] => []
  | [a] => [b64Char (a / 4), b64Char (a % 4 * 16), 61, 61]
  | [a, b] => [b64Char (a / 4), b64Char (a % 4 * 16 + b / 16), b64Char (b % 16 * 4), 61]
  | a :: b :: c :: rest =>
    b64Char (a / 4) :: b64Char (a % 4 * 16 + b / 16) :: b64Char (b % 16 * 4 + c / 64) ::
      b64Char (c % 64) :: b64encode rest

/-! ## ConfigUtils.extract_ip_from_config (src/pingco.py lines 67-85) -/

/-- The regex search `@([^:]+):` of the vless branch: scan left to right
for an `@` (code 64) followed by a nonempty run of non-`:` characters
and a `:` (code 58); the captured run is the host. -/
def vlessHostSearch : PyStr → Option PyStr
  | [] => none
  | c :: rest =>
    if c = 64 ∧ rest.takeWhile (fun v => !(v == 58)) ≠ [] ∧
        (rest.takeWhile (fun v => !(v == 58))).length < rest.length then
      some (rest.takeWhile (fun v => !(v == 58)))
    else vlessHostSearch rest

/-- One anchored attempt of the regex `"add"\s*:\s*"([^"]+)"` of the
vmess branch: the literal `"add"`, optional whitespace, `:`, optional
whitespace, `"`, then a nonempty captured run of non-quote characters
terminated by `"`.  (`\s` is modelled by the ASCII whitespace class.) -/
def addMatchAt (l : PyStr) : Option PyStr :=
  if startsWithPat (pys "\"add\"") l then
    match (l.drop 5).dropWhile isPySpace with
    | 58 :: l2 =>
      match l2.dropWhile isPySpace with
      | 34 :: l3 =>
        if l3.takeWhile (fun v => !(v == 34)) ≠ [] ∧
            (l3.takeWhile (fun v => !(v == 34))).length < l3.length then
          some (l3.takeWhile (fun v => !(v == 34)))
        else none
      | _ => none
    | _ => none
  else none

/-- `re.search` with the `"add"` pattern: leftmost match wins. -/
def addSearch : PyStr → Option PyStr
  | [] => none
  | c :: rest =>
    match addMatchAt (c :: rest) with
    | some v => some v
    | none => addSearch rest

/-- Loop of `str.replace('vmess://', '')`: remove every occurrence of
the scheme string (fuel-indexed; fuel at least the length suffices). -/
def removeVmessGo : Nat → PyStr → PyStr
  | _, [] => []
  | 0, l => l
  | fuel + 1, c :: rest =>
    if startsWithPat (pys "vmess://") (c :: rest) then
      removeVmessGo fuel ((c :: rest).drop 8)
    else c :: removeVmessGo fuel rest

/-- `config.replace('vmess://', '')`. -/
def removeVmessScheme (l : PyStr) : PyStr := removeVmessGo l.length l

/-- `ConfigUtils.extract_ip_from_config` (lines 67-85): for `vless://`
configs, the `@([^:]+):` regex capture; for `vmess://` configs,
base64-decode the payload (with `'=='` appended), decode it strictly as
UTF-8, and return the `"add"` regex capture; `None` on any failure. -/
def extract_ip_from_config (config : PyStr) : Option PyStr :=
  if startsWithPat (pys "vless://") config then
    vlessHostSearch config
  else if startsWithPat (pys "vmess://") config then
    match b64decode (removeVmessScheme config ++ pys "==") with
    | none => none
    | some bytes =>
      match utf8Decode bytes with
      | none => none
      | some decoded => addSearch decoded
  else none

/-! ## ConfigFetcher.smart_decode (src/pingco.py lines 218-285) -/

/-- The scheme prefixes that disqualify a line from the base64
heuristic (`ConfigFetcher.is_base64`, line 228). -/
def knownSchemes : List PyStr :=
  [pys "vless://", pys "vmess://", pys "ss://", pys "trojan://",
   pys "http://", pys "https://"]

/-- The regex `[A-Za-z0-9+/]*=\x7b0,2\x7d` anchored at both ends: a run
of base64 alphabet characters followed by at most two `=` characters. -/
def b64Pattern (l : PyStr) : Bool :=
  decide ((l.reverse.takeWhile (fun v => v == 61)).length ≤ 2) &&
    (l.reverse.dropWhile (fun v => v == 61)).all isB64Char

/-- `ConfigFetcher.is_base64` (lines 218-235): strip, reject known
scheme prefixes, then require length over 20 and the base64 pattern. -/
def is_base64 (text : PyStr) : Bool :=
  if knownSchemes.any (fun p => startsWithPat p (pyStrip text)) then false
  else decide ((pyStrip text).length > 20) && b64Pattern (pyStrip text)

/-- The padding step of `smart_decode` (lines 260-262): append `'='`
up to a multiple of four. -/
def padB64 (t : PyStr) : PyStr :=
  if t.length % 4 = 0 then t else t ++ List.replicate (4 - t.length % 4) 61

/-- The decode loop of `ConfigFetcher.smart_decode` (lines 251-276),
together with the number of successful decode iterations.  One unit of
fuel corresponds to one pass of the Python `while iteration <
max_iterations` loop body that ends in `iteration += 1`; on heuristic
failure, decode error, empty or unchanged result, the loop stops and the
current text is returned (including any padding appended to it before a
failing or unchanged decode, since Python's `text += '='...` mutates
`text` itself). -/
def b64Loop : Nat → PyStr → PyStr × Nat
  | 0, text => (text, 0)
  | fuel + 1, text =>
    if is_base64 text then
      match b64decode (padB64 text) with
      | none => (padB64 text, 0)
      | some bytes =>
        if pyStrip (utf8DecodeIgnore bytes) ≠ [] ∧
            pyStrip (utf8DecodeIgnore bytes) ≠ padB64 text then
          ((b64Loop fuel (pyStrip (utf8DecodeIgnore bytes))).1,
           (b64Loop fuel (pyStrip (utf8DecodeIgnore bytes))).2 + 1)
        else (padB64 text, 0)
    else (text, 0)

/-- `ConfigFetcher.smart_decode` (lines 237-285) with its iteration
count: UTF-8-decode the raw bytes (invalid bytes dropped), strip, then
repeatedly unwrap base64 while the heuristic holds, at most
`max_iterations = 5` times. -/
def smart_decodeCount (content : PyBytes) : PyStr × Nat :=
  b64Loop 5 (pyStrip (utf8DecodeIgnore content))

/-- `ConfigFetcher.smart_decode`: the decoded text. -/
def smart_decode (content : PyBytes) : PyStr := (smart_decodeCount content).1

/-! ## JSON values (Python `json.loads`, used by `_parse_vmess_config`) -/

/-- A JSON value.  Numbers are modelled as integers only and strings
support only the `\"` and `\\` escapes; a float or another escape makes
the model parser fail where `json.loads` would succeed — no verified
property depends on those payloads. -/
inductive JVal where
  | jnull : JVal
  | jbool : Bool → JVal
  | jnum : Int → JVal
  | jstr : PyStr → JVal
  | jarr : List JVal → JVal
  | jobj : List (PyStr × JVal) → JVal

/-- Is `v` an ASCII digit? -/
def isDigitB (v : Nat) : Bool := 48 ≤ v && v ≤ 57

/-- The numeric value of a digit string. -/
def natOfDigits (l : PyStr) : Nat := l.foldl (fun acc d => acc * 10 + (d - 48)) 0

/-- Scan a JSON string body up to the closing quote (fuel-indexed;
escaped quote and backslash supported). -/
def jStrGo : Nat → PyStr → Option (PyStr × PyStr)
  | 0, _ => none
  | _ + 1, [] => none
  | fuel + 1, c :: rest =>
    if c = 34 then some ([], rest)
    else if c = 92 then
      match rest with
      | 34 :: rest2 => (jStrGo fuel rest2).map (fun p => (34 :: p.1, p.2))
      | 92 :: rest2 => (jStrGo fuel rest2).map (fun p => (92 :: p.1, p.2))
      | _ => none
    else (jStrGo fuel rest).map (fun p => (c :: p.1, p.2))

/-- Parse a JSON string body (after the opening quote). -/
def parseJStrBody (l : PyStr) : Option (PyStr × PyStr) := jStrGo l.length l

/-- Parse a JSON integer (a float suffix makes the model fail). -/
def parseJInt (l : PyStr) : Option (JVal × PyStr) :=
  match l with
  | 45 :: rest =>
    if rest.takeWhile isDigitB ≠ [] ∧
        ¬((rest.drop (rest.takeWhile isDigitB).length).head? = some 46 ∨
          (rest.drop (rest.takeWhile isDigitB).length).head? = some 101 ∨
          (rest.drop (rest.takeWhile isDigitB).length).head? = some 69) then
      some (JVal.jnum (-(natOfDigits (rest.takeWhile isDigitB) : Int)),
        rest.drop (rest.takeWhile isDigitB).length)
    else none
  | l =>
    if l.takeWhile isDigitB ≠ [] ∧
        ¬((l.drop (l.takeWhile isDigitB).length).head? = some 46 ∨
          (l.drop (l.takeWhile isDigitB).length).head? = some 101 ∨
          (l.drop (l.takeWhile isDigitB).length).head? = some 69) then
      some (JVal.jnum (natOfDigits (l.takeWhile isDigitB) : Int),
        l.drop (l.takeWhile isDigitB).length)
    else none

mutual

/-- Parse one JSON value (fuel-indexed recursive descent). -/
def parseJVal : Nat → PyStr → Option (JVal × PyStr)
  | 0, _ => none
  | fuel + 1, l =>
    match l.dropWhile isPySpace with
    | [] => none
    | c :: rest =>
      if c = 34 then (parseJStrBody rest).map (fun p => (JVal.jstr p.1, p.2))
      else if c = 123 then
        match rest.dropWhile isPySpace with
        | 125 :: rest2 => some (JVal.jobj [], rest2)
        | _ => (parseJMembers fuel rest).map (fun p => (JVal.jobj p.1, p.2))
      else if c = 91 then
        match rest.dropWhile isPySpace with
        | 93 :: rest2 => some (JVal.jarr [], rest2)
        | _ => (parseJItems fuel rest).map (fun p => (JVal.jarr p.1, p.2))
      else if startsWithPat (pys "null") (c :: rest) then
        some (JVal.jnull, (c :: rest).drop 4)
      else if startsWithPat (pys "true") (c :: rest) then
        some (JVal.jbool true, (c :: rest).drop 4)
      else if startsWithPat (pys "false") (c :: rest) then
        some (JVal.jbool false, (c :: rest).drop 5)
      else parseJInt (c :: rest)

/-- Parse the members of a JSON object after the opening brace. -/
def parseJMembers : Nat → PyStr → Option (List (PyStr × JVal) × PyStr)
  | 0, _ => none
  | fuel + 1, l =>
    match l.dropWhile isPySpace with
    | 34 :: rest =>
      match parseJStrBody rest with
      | none => none
      | some (key, rest2) =>
        match rest2.dropWhile isPySpace with
        | 58 :: rest3 =>
          match parseJVal fuel rest3 with
          | none => none
          | some (v, rest4) =>
            match rest4.dropWhile isPySpace with
            | 44 :: rest5 =>
              (parseJMembers fuel rest5).map (fun p => ((key, v) :: p.1, p.2))
            | 125 :: rest5 => some ([(key, v)], rest5)
            | _ => none
        | _ => none
    | _ => none

/-- Parse the items of a JSON array after the opening bracket. -/
def parseJItems : Nat → PyStr → Option (List JVal × PyStr)
  | 0, _ => none
  | fuel + 1, l =>
    match parseJVal fuel l with
    | none => none
    | some (v, rest) =>
      match rest.dropWhile isPySpace with
      | 44 :: rest2 => (parseJItems fuel rest2).map (fun p => (v :: p.1, p.2))
      | 93 :: rest2 => some ([v], rest2)
      | _ => none

end

/-- Python `json.loads`: one JSON value with only whitespace around it. -/
def json_loads (l : PyStr) : Option JVal :=
  match parseJVal l.length l with
  | some (v, rest) => if (rest.dropWhile isPySpace).isEmpty then some v else none
  | none => none

/-- Dictionary lookup: a later duplicate key wins, as in a Python dict
built from a JSON object. -/
def jGet (fields : List (PyStr × JVal)) (k : PyStr) : Option JVal :=
  (fields.reverse.find? (fun p => p.1 == k)).map (fun p => p.2)

/-- Does this optional JSON value equal the given string? -/
def jIsStr (v : Option JVal) (s : PyStr) : Bool :=
  match v with
  | some (JVal.jstr t) => t == s
  | _ => false

/-- Python `int(x)` on a decoded JSON value: numbers pass through,
numeric strings (with optional surrounding whitespace and sign) are
parsed, booleans coerce, everything else raises (`none`). -/
def pyIntOf : Option JVal → Option Int
  | some (JVal.jnum n) => some n
  | some (JVal.jbool b) => some (if b then 1 else 0)
  | some (JVal.jstr s) =>
    match pyStrip s with
    | 45 :: ds => if ds ≠ [] ∧ ds.all isDigitB then some (-(natOfDigits ds : Int)) else none
    | 43 :: ds => if ds ≠ [] ∧ ds.all isDigitB then some (natOfDigits ds : Int) else none
    | ds => if ds ≠ [] ∧ ds.all isDigitB then some (natOfDigits ds : Int) else none
  | _ => none

/-! ## V2RayProxyManager: config parsing (src/pingco.py lines 489-595) -/

/-- The outbound relay definition built by `_parse_vless_config` /
`_parse_vmess_config`: protocol, server address and port, user id, and
the stream settings (network, security, TLS server name, websocket
path/host, gRPC service name) that `_create_xray_config` wraps. -/
structure Outbound where
  protocol : PyStr
  address : Option JVal
  port : Int
  uid : Option JVal
  network : JVal
  security : JVal
  tlsServerName : Option JVal
  wsPath : Option JVal
  wsHost : Option JVal
  grpcService : Option JVal

/-- Split on `&` (Python `params.split('&')`). -/
def splitAmp : PyStr → List PyStr
  | [] => [[]]
  | c :: rest =>
    if c = 38 then [] :: splitAmp rest
    else
      match splitAmp rest with
      | [] => [[c]]
      | g :: gs => (c :: g) :: gs

/-- The query parameters of a vless URI: for each `&`-separated piece
containing `=`, split once at the first `=`.  (The `urllib.parse.unquote`
percent-decoding of values is omitted; no verified property depends on
parameter values.) -/
def vlessParams (params : PyStr) : List (PyStr × PyStr) :=
  (splitAmp params).filterMap (fun p =>
    if p.contains 61 then
      some (p.takeWhile (fun v => !(v == 61)),
        p.drop ((p.takeWhile (fun v => !(v == 61))).length + 1))
    else none)

/-- Lookup in the vless parameter dict (later duplicate keys win). -/
def pGet (d : List (PyStr × PyStr)) (k : PyStr) : Option PyStr :=
  ((d.reverse.find? (fun p => p.1 == k)).map (fun p => p.2))

/-- Outbound construction of `_parse_vless_config` (lines 507-545). -/
def mkVlessOutbound (uuid addr : PyStr) (port : Nat)
    (d : List (PyStr × PyStr)) : Outbound :=
  { protocol := pys "vless"
    address := some (JVal.jstr addr)
    port := (port : Int)
    uid := some (JVal.jstr uuid)
    network := JVal.jstr ((pGet d (pys "type")).getD (pys "tcp"))
    security := JVal.jstr ((pGet d (pys "security")).getD (pys "none"))
    tlsServerName :=
      if (pGet d (pys "security")).getD (pys "none") = pys "tls" then
        some (JVal.jstr ((pGet d (pys "sni")).getD addr))
      else none
    wsPath :=
      if (pGet d (pys "type")).getD (pys "tcp") = pys "ws" then
        some (JVal.jstr ((pGet d (pys "path")).getD (pys "/")))
      else none
    wsHost :=
      if (pGet d (pys "type")).getD (pys "tcp") = pys "ws" then
        some (JVal.jstr ((pGet d (pys "host")).getD addr))
      else none
    grpcService :=
      if (pGet d (pys "type")).getD (pys "tcp") = pys "grpc" then
        some (JVal.jstr ((pGet d (pys "serviceName")).getD (pys "")))
      else none }

/-- The parameter region: strip one leading `?` and stop at a newline. -/
def paramRegion (r4 : PyStr) : PyStr :=
  match r4 with
  | 63 :: rest => rest.takeWhile (fun v => !(v == 10))
  | r4 => r4.takeWhile (fun v => !(v == 10))

/-- The tail of `_parse_vless_config` after the host and `:`: nonempty
digits, an optional `?`, then the parameter region (up to a newline). -/
def parseVlessAfterHost (uuid addr r3 : PyStr) : Option Outbound :=
  if r3.takeWhile isDigitB ≠ [] then
    some (mkVlessOutbound uuid addr (natOfDigits (r3.takeWhile isDigitB))
      (vlessParams
        (paramRegion (r3.drop (r3.takeWhile isDigitB).length))))
  else none

/-- The tail of `_parse_vless_config` after the uuid and `@`: host,
port, and parameters. -/
def parseVlessAfterUuid (uuid r2 : PyStr) : Option Outbound :=
  if r2.takeWhile (fun v => !(v == 58)) ≠ [] ∧
      (r2.takeWhile (fun v => !(v == 58))).length < r2.length then
    parseVlessAfterHost uuid (r2.takeWhile (fun v => !(v == 58)))
      (r2.drop ((r2.takeWhile (fun v => !(v == 58))).length + 1))
  else none

/-- `V2RayProxyManager._parse_vless_config` (lines 489-548): the anchored
regex `vless://([^@]+)@([^:]+):(\d+)\??(.*)#?(.*)` followed by parameter
parsing and outbound construction; `None` when the regex does not
match.  (`.` does not cross a newline; the trailing `#?(.*)` always
matches the empty string after the greedy `(.*)`.) -/
def parse_vless (config : PyStr) : Option Outbound :=
  if startsWithPat (pys "vless://") config then
    if (config.drop 8).takeWhile (fun v => !(v == 64)) ≠ [] ∧
        ((config.drop 8).takeWhile (fun v => !(v == 64))).length < (config.drop 8).length then
      parseVlessAfterUuid
        ((config.drop 8).takeWhile (fun v => !(v == 64)))
        ((config.drop 8).drop (((config.drop 8).takeWhile (fun v => !(v == 64))).length + 1))
    else none
  else none

/-- `V2RayProxyManager._parse_vmess_config` (lines 550-595):
base64-decode the payload (`'=='` appended), decode strictly as UTF-8,
`json.loads` it (it must be an object, or the `.get` calls raise), then
build the outbound; `int(...)` failures on `port`/`aid` raise, which the
enclosing `try` turns into `None`. -/
def parse_vmess (config : PyStr) : Option Outbound :=
  match b64decode (removeVmessScheme config ++ pys "==") with
  | none => none
  | some bytes =>
    match utf8Decode bytes with
    | none => none
    | some decoded =>
      match json_loads decoded with
      | some (JVal.jobj fields) =>
        match pyIntOf (jGet fields (pys "port")) with
        | none => none
        | some port =>
          match pyIntOf (some ((jGet fields (pys "aid")).getD (JVal.jnum 0))) with
          | none => none
          | some _ =>
            some { protocol := pys "vmess"
                   address := jGet fields (pys "add")
                   port := port
                   uid := jGet fields (pys "id")
                   network := (jGet fields (pys "net")).getD (JVal.jstr (pys "tcp"))
                   security := (jGet fields (pys "tls")).getD (JVal.jstr (pys "none"))
                   tlsServerName :=
                     if jIsStr (jGet fields (pys "tls")) (pys "tls") then
                       some (((jGet fields (pys "sni")).orElse
                         (fun _ => jGet fields (pys "add"))).getD JVal.jnull)
                     else none
                   wsPath :=
                     if jIsStr (jGet fields (pys "net")) (pys "ws") then
                       some ((jGet fields (pys "path")).getD (JVal.jstr (pys "/")))
                     else none
                   wsHost :=
                     if jIsStr (jGet fields (pys "net")) (pys "ws") then
                       some (((jGet fields (pys "host")).orElse
                         (fun _ => jGet fields (pys "add"))).getD JVal.jnull)
                     else none
                   grpcService := none }
      | _ => none

/-- The parse dispatch of `start_proxy` (lines 620-627): `vless://`
configs go to `_parse_vless_config`, `vmess://` configs to
`_parse_vmess_config`, anything else leaves `outbound = None`. -/
def parseOutbound (config : PyStr) : Option Outbound :=
  if startsWithPat (pys "vless://") config then parse_vless config
  else if startsWithPat (pys "vmess://") config then parse_vmess config
  else none

/-! ## V2RayProxyManager: process and temp-file lifecycle (lines 614-689) -/

/-- The mutable fields of a `V2RayProxyManager`: `self.process` and
`self.config_file`, as identifiers of the spawned process and created
temp file. -/
structure MState where
  process : Option Nat
  config_file : Option Nat
deriving DecidableEq

/-- The operating-system state this manager touches: processes it
spawned and has not killed, temp config files it created and has not
removed, and a fresh-identifier counter.  The OS-level `kill`/`wait` and
`os.remove` primitives are modelled as succeeding — the code's bare
`except: pass` around them swallows OS anomalies that are outside the
program's semantics. -/
structure World where
  nextId : Nat
  procs : List Nat
  files : List Nat
deriving DecidableEq

/-- The temp-file half of `stop_proxy` (lines 681-686): remove and clear
the file, but only when `self.config_file` is set and the file still
exists on disk — the reference is left set otherwise, mirroring the
code's `if self.config_file and os.path.exists(...)` guard. -/
def stopFileStep (s : MState) (w : World) : MState × World :=
  match s.config_file with
  | some f =>
    if f ∈ w.files then (⟨s.process, none⟩, ⟨w.nextId, w.procs, w.files.erase f⟩)
    else (s, w)
  | none => (s, w)

/-- `V2RayProxyManager.stop_proxy` (lines 671-686): kill and clear the
process if one is referenced, then handle the temp file. -/
def stop_proxy (s : MState) (w : World) : MState × World :=
  match s.process with
  | some p => stopFileStep ⟨none, s.config_file⟩ ⟨w.nextId, w.procs.erase p, w.files⟩
  | none => stopFileStep s w

/-- The environment outcomes `start_proxy` branches on: whether
`_find_xray` found a binary (set in `__init__`), whether
`subprocess.Popen` raises, and whether `_test_proxy`'s probe of the
local SOCKS port succeeds. -/
structure StartEnv where
  xrayFound : Bool
  popenOk : Bool
  portReady : Bool

/-- The tail of `start_proxy` after `Popen` succeeded (lines 645-653):
sleep, then `_test_proxy`; on a dead port, full teardown and `False`. -/
def startAfterPopen (env : StartEnv) (s2 : MState) (w2 : World) :
    Bool × MState × World :=
  if env.portReady then (true, s2, w2)
  else (false, (stop_proxy s2 w2).1, (stop_proxy s2 w2).2)

/-- The tail of `start_proxy` after the temp config file was written
(lines 639-657): `Popen` may raise (caught: teardown and `False`),
otherwise the process reference is stored and the port is probed. -/
def startAfterFile (env : StartEnv) (s1 : MState) (w1 : World) :
    Bool × MState × World :=
  if env.popenOk then
    startAfterPopen env ⟨some w1.nextId, s1.config_file⟩
      ⟨w1.nextId + 1, w1.nextId :: w1.procs, w1.files⟩
  else (false, (stop_proxy s1 w1).1, (stop_proxy s1 w1).2)

/-- `V2RayProxyManager.start_proxy` (lines 614-657): fail fast when no
binary was found; parse the config (`False` without any side effect when
unparsable); otherwise create the temp config file, launch the process
and probe the port, tearing everything down on any failure. -/
def start_proxy (env : StartEnv) (config : PyStr) (s : MState) (w : World) :
    Bool × MState × World :=
  if env.xrayFound then
    match parseOutbound config with
    | none => (false, s, w)
    | some _ =>
      startAfterFile env ⟨s.process, some w.nextId⟩
        ⟨w.nextId + 1, w.procs, w.nextId :: w.files⟩
  else (false, s, w)

/-- A fresh manager (`V2RayProxyManager.__init__`): no process, no temp
file. -/
def initMState : MState := ⟨none, none⟩

/-- Manager states reachable through the documented protocol: a fresh
manager and a disk holding none of its files, `start_proxy` called only
from the stopped state (spec §4.5: callers must stop before starting
another), `stop_proxy` callable at any time. -/
inductive Reach : MState → World → Prop where
  | init : ∀ n : Nat, Reach initMState ⟨n, [], []⟩
  | step_start : ∀ (env : StartEnv) (cfg : PyStr) (s : MState) (w : World),
      Reach s w → s.process = none → s.config_file = none →
      Reach (start_proxy env cfg s w).2.1 (start_proxy env cfg s w).2.2
  | step_stop : ∀ (s : MState) (w : World),
      Reach s w → Reach (stop_proxy s w).1 (stop_proxy s w).2

/-! ## RealPing.test_config (lines 139-211) and
TelegramBot._make_request (lines 807-858) -/

/-- Where, if anywhere, the overall-deadline `TimeoutError` raised by
the `SIGALRM` handler (or any other unexpected exception) interrupts
`test_config`: never; after `start_proxy` returns but before the
original socket factory is saved; after the factory was replaced; or
after it was already restored. -/
inductive RaisePoint where
  | noRaise : RaisePoint
  | afterStart : RaisePoint
  | afterSet : RaisePoint
  | afterRestore : RaisePoint
deriving DecidableEq

/-- The network-environment outcomes `test_config` branches on: whether
PySocks is importable, the outcome of the inner test request (`none`
when `urllib.request.urlopen` raised, caught by the inner bare
`except`), and the interrupt point. -/
structure NetEnv where
  hasSocks : Bool
  reqLatency : Option ℚ
  raisePt : RaisePoint

/-- The observable outcome of `test_config`: the returned latency, the
final value of the global `socket.socket` factory, and the manager and
OS state. -/
structure TCResult (A : Type) where
  latency : Option ℚ
  sockFact : A
  mgr : MState
  world : World

/-- The region of `test_config` in which the socket factory has been
replaced (lines 173-196): `original_socket` holds `saved`, the factory
currently is `sockS`; every exit path restores `saved` (the success path
explicitly, the exception handler because `original_socket` is truthy)
and stops the proxy. -/
def testWithProxy (A : Type) (ne : NetEnv) (saved sockS : A) (s : MState)
    (w : World) : TCResult A :=
  if ne.raisePt = RaisePoint.afterSet then
    ⟨none, saved, (stop_proxy s w).1, (stop_proxy s w).2⟩
  else
    if ne.raisePt = RaisePoint.afterRestore then
      ⟨none, saved,
        (stop_proxy (stop_proxy s w).1 (stop_proxy s w).2).1,
        (stop_proxy (stop_proxy s w).1 (stop_proxy s w).2).2⟩
    else ⟨ne.reqLatency, saved, (stop_proxy s w).1, (stop_proxy s w).2⟩

/-- `RealPing.test_config` (lines 139-211): a fresh manager is created;
the alarm is armed; `start_proxy` failure, missing PySocks, or an
interrupt each stop the proxy and return `None` without touching the
socket factory (`original_socket` is still `None`); otherwise the
factory is swapped for the duration of the test request. -/
def test_config (A : Type) (se : StartEnv) (ne : NetEnv) (cfg : PyStr)
    (v0 sockS : A) (w : World) : TCResult A :=
  if ne.raisePt = RaisePoint.afterStart then
    ⟨none, v0,
      (stop_proxy (start_proxy se cfg initMState w).2.1
        (start_proxy se cfg initMState w).2.2).1,
      (stop_proxy (start_proxy se cfg initMState w).2.1
        (start_proxy se cfg initMState w).2.2).2⟩
  else if (start_proxy se cfg initMState w).1 = false then
    ⟨none, v0,
      (stop_proxy (start_proxy se cfg initMState w).2.1
        (start_proxy se cfg initMState w).2.2).1,
      (stop_proxy (start_proxy se cfg initMState w).2.1
        (start_proxy se cfg initMState w).2.2).2⟩
  else if ne.hasSocks = false then
    ⟨none, v0,
      (stop_proxy (start_proxy se cfg initMState w).2.1
        (start_proxy se cfg initMState w).2.2).1,
      (stop_proxy (start_proxy se cfg initMState w).2.1
        (start_proxy se cfg initMState w).2.2).2⟩
  else
    testWithProxy A ne v0 sockS (start_proxy se cfg initMState w).2.1
      (start_proxy se cfg initMState w).2.2

/-- The proxied branch of `_make_request` (lines 813-846): the factory
is replaced by the SOCKS socket class; both the success path and the
exception handler restore the saved original before returning. -/
def mrWithProxy (A : Type) (req : Option Bool) (saved : A) : Bool × A :=
  match req with
  | some st => (st, saved)
  | none => (false, saved)

/-- `TelegramBot._make_request` (lines 807-858): with a proxy and
PySocks the factory is swapped for the call; with a proxy but no PySocks
it returns `False` immediately; without a proxy the factory is never
touched (`original_socket` stays `None`, so the handler does not restore
anything).  `req` is the request outcome: `some b` for an HTTP response
with `status == 200` iff `b`, `none` when `urlopen` raised. -/
def make_request (A : Type) (hasProxy hasSocks : Bool) (req : Option Bool)
    (v0 sockS : A) : Bool × A :=
  if hasProxy ∧ hasSocks then mrWithProxy A req v0
  else if hasProxy ∧ ¬hasSocks then (false, v0)
  else
    match req with
    | some st => (st, v0)
    | none => (false, v0)

/-! ## Ranker (src/pingco.py lines 391-395) -/

/-- `ConfigProcessor.sort_by_latency`: Python's
`sorted(results, key=lambda x: x[1])`.  `sorted` is a stable comparison
sort on the latency key; a stable sort's output is uniquely determined,
and insertion sort with the non-strict key comparison computes it.
Latencies (Python floats) are modelled as rationals. -/
def sort_by_latency {α : Type} (results : List (α × ℚ)) : List (α × ℚ) :=
  List.insertionSort (fun a b => a.2 ≤ b.2) results

end Pingco

namespace Pingco

/-! ## Lemmas: pyStrip -/

theorem pyStrip_idem (s : PyStr) : pyStrip (pyStrip s) = pyStrip s := by
  unfold pyStrip
  have h1 : List.dropWhile isPySpace
      (List.rdropWhile isPySpace (List.dropWhile isPySpace s)) =
      List.rdropWhile isPySpace (List.dropWhile isPySpace s) := by
    rw [List.dropWhile_eq_self_iff]
    intro hl
    have hlen : (List.rdropWhile isPySpace (List.dropWhile isPySpace s)).length ≤
        (List.dropWhile isPySpace s).length :=
      ( List.rdropWhile_prefix isPySpace (List.dropWhile isPySpace s)).length_le
    have h0 : 0 < (List.dropWhile isPySpace s).length := lt_of_lt_of_le hl hlen
    have hget := List.IsPrefix.getElem
      ( List.rdropWhile_prefix isPySpace (List.dropWhile isPySpace s)) hl
    have hnot := List.dropWhile_get_zero_not (p := isPySpace) s h0
    simp only [List.get_eq_getElem] at hnot ⊢
    rw [hget]
    exact hnot
  rw [h1, List.rdropWhile_idempotent]

theorem mem_pyStrip {v : Nat} {s : PyStr} (h : v ∈ pyStrip s) : v ∈ s := by
  unfold pyStrip at h
  have h1 : v ∈ List.dropWhile isPySpace s :=
    ( List.rdropWhile_prefix isPySpace _).sublist.mem h
  exact (List.dropWhile_suffix isPySpace).sublist.mem h1

/-! ## Lemmas: remove_duplicates -/

theorem removeDupGo_not_mem_seen :
    ∀ (l : List PyStr) (seen : List PyStr) (x : PyStr),
      x ∈ removeDupGo seen l → x ∉ seen := by
  intro l
  induction l with
  | nil => intro seen x hx; simp [removeDupGo] at hx
  | cons c rest ih =>
    intro seen x hx
    rw [removeDupGo] at hx
    by_cases hkeep : keepP (normalize_config c) = true
    · rw [if_pos hkeep] at hx
      by_cases hseen : normalize_config c ∈ seen
      · rw [if_pos hseen] at hx
        exact ih seen x hx
      · rw [if_neg hseen] at hx
        rcases List.mem_cons.mp hx with h | h
        · subst h; exact hseen
        · intro hmem
          exact (ih _ x h) (List.mem_cons_of_mem _ hmem)
    · rw [if_neg hkeep] at hx
      exact ih seen x hx

theorem removeDupGo_nodup :
    ∀ (l : List PyStr) (seen : List PyStr), (removeDupGo seen l).Nodup := by
  intro l
  induction l with
  | nil => intro seen; simp [removeDupGo]
  | cons c rest ih =>
    intro seen
    rw [removeDupGo]
    by_cases hkeep : keepP (normalize_config c) = true
    · rw [if_pos hkeep]
      by_cases hseen : normalize_config c ∈ seen
      · rw [if_pos hseen]; exact ih seen
      · rw [if_neg hseen]
        refine List.nodup_cons.mpr ⟨fun hmem => ?_, ih _⟩
        exact removeDupGo_not_mem_seen rest _ _ hmem (List.mem_cons_self _ _)
    · rw [if_neg hkeep]; exact ih seen

theorem removeDupGo_length_le :
    ∀ (l : List PyStr) (seen : List PyStr),
      (removeDupGo seen l).length ≤ l.length := by
  intro l
  induction l with
  | nil => intro seen; simp [removeDupGo]
  | cons c rest ih =>
    intro seen
    rw [removeDupGo]
    by_cases hkeep : keepP (normalize_config c) = true
    · rw [if_pos hkeep]
      by_cases hseen : normalize_config c ∈ seen
      · rw [if_pos hseen]; exact Nat.le_succ_of_le (ih seen)
      · rw [if_neg hseen]
        simpa using Nat.succ_le_succ (ih _)
    · rw [if_neg hkeep]; exact Nat.le_succ_of_le (ih seen)

theorem removeDupGo_sublist_validNorm :
    ∀ (l : List PyStr) (seen : List PyStr),
      (removeDupGo seen l).Sublist (validNorm l) := by
  intro l
  induction l with
  | nil => intro seen; simp [removeDupGo, validNorm]
  | cons c rest ih =>
    intro seen
    rw [removeDupGo]
    simp only [validNorm, List.map_cons, List.filter_cons]
    by_cases hkeep : keepP (normalize_config c) = true
    · rw [if_pos hkeep, if_pos hkeep]
      by_cases hseen : normalize_config c ∈ seen
      · rw [if_pos hseen]
        exact List.Sublist.cons _ (ih seen)
      · rw [if_neg hseen]
        exact List.Sublist.cons₂ _ (ih _)
    · rw [if_neg hkeep, if_neg hkeep]
      exact ih seen

theorem removeDupGo_eq_keepFirst :
    ∀ (l : List PyStr) (seen : List PyStr),
      removeDupGo seen l =
        keepFirst ((validNorm l).filter (fun x => decide (x ∉ seen))) := by
  intro l
  induction l with
  | nil => intro seen; simp [removeDupGo, validNorm, keepFirst]
  | cons c rest ih =>
    intro seen
    rw [removeDupGo]
    simp only [validNorm, List.map_cons, List.filter_cons]
    by_cases hkeep : keepP (normalize_config c) = true
    · rw [if_pos hkeep, if_pos hkeep, List.filter_cons]
      by_cases hseen : normalize_config c ∈ seen
      · rw [if_pos hseen, if_neg (by simpa using hseen)]
        exact ih seen
      · rw [if_neg hseen, if_pos (by simpa using hseen)]
        simp only [keepFirst]
        congr 1
        rw [ih (normalize_config c :: seen), List.filter_filter]
        have hfun : (fun a : PyStr => decide (a ≠ normalize_config c) && decide (a ∉ seen)) =
            fun a : PyStr => decide (a ∉ normalize_config c :: seen) := by
          funext x
          by_cases hx : x = normalize_config c
          · simp [hx]
          · by_cases hx2 : x ∈ seen <;> simp [List.mem_cons, hx, hx2]
        rw [hfun]
        rfl
    · rw [if_neg hkeep, if_neg hkeep]
      exact ih seen

theorem removeDupGo_mem_prop :
    ∀ (l : List PyStr) (seen : List PyStr) (x : PyStr),
      x ∈ removeDupGo seen l →
        keepP x = true ∧ ∃ c ∈ l, x = normalize_config c := by
  intro l
  induction l with
  | nil => intro seen x hx; simp [removeDupGo] at hx
  | cons c rest ih =>
    intro seen x hx
    rw [removeDupGo] at hx
    by_cases hkeep : keepP (normalize_config c) = true
    · rw [if_pos hkeep] at hx
      by_cases hseen : normalize_config c ∈ seen
      · rw [if_pos hseen] at hx
        obtain ⟨hk, d, hd, hxd⟩ := ih seen x hx
        exact ⟨hk, d, List.mem_cons_of_mem _ hd, hxd⟩
      · rw [if_neg hseen] at hx
        rcases List.mem_cons.mp hx with h | h
        · subst h; exact ⟨hkeep, c, List.mem_cons_self _ _, rfl⟩
        · obtain ⟨hk, d, hd, hxd⟩ := ih _ x h
          exact ⟨hk, d, List.mem_cons_of_mem _ hd, hxd⟩
    · rw [if_neg hkeep] at hx
      obtain ⟨hk, d, hd, hxd⟩ := ih seen x hx
      exact ⟨hk, d, List.mem_cons_of_mem _ hd, hxd⟩

end Pingco

namespace Pingco

/-! ## Lemmas: sort_by_latency -/

theorem filter_orderedInsert {α : Type} (q : ℚ) (x : α × ℚ) (m : List (α × ℚ)) :
    (List.orderedInsert (fun a b => a.2 ≤ b.2) x m).filter (fun y => decide (y.2 = q)) =
      if x.2 = q then x :: m.filter (fun y => decide (y.2 = q))
      else m.filter (fun y => decide (y.2 = q)) := by
  induction m with
  | nil =>
    by_cases hx : x.2 = q <;> simp [List.orderedInsert, hx]
  | cons y m ih =>
    rw [List.orderedInsert]
    by_cases hr : x.2 ≤ y.2
    · rw [if_pos hr]
      by_cases hx : x.2 = q <;> by_cases hy : y.2 = q <;>
        simp [List.filter_cons, hx, hy]
    · rw [if_neg hr]
      have hlt : y.2 < x.2 := lt_of_not_le hr
      by_cases hx : x.2 = q
      · have hy : ¬(y.2 = q) := by rw [← hx]; exact ne_of_lt hlt
        simp [List.filter_cons, hx, hy, ih]
      · by_cases hy : y.2 = q <;> simp [List.filter_cons, hx, hy, ih]

theorem sort_by_latency_filter {α : Type} (q : ℚ) (l : List (α × ℚ)) :
    (sort_by_latency l).filter (fun y => decide (y.2 = q)) =
      l.filter (fun y => decide (y.2 = q)) := by
  induction l with
  | nil => rfl
  | cons x l ih =>
    simp only [sort_by_latency, List.insertionSort] at *
    rw [filter_orderedInsert, List.filter_cons]
    by_cases hx : x.2 = q <;> simp [hx, ih]

theorem sort_by_latency_pairwise {α : Type} (l : List (α × ℚ)) :
    (sort_by_latency l).Pairwise (fun a b => a.2 ≤ b.2) := by
  have ht : IsTotal (α × ℚ) (fun a b => a.2 ≤ b.2) := ⟨fun a b => le_total a.2 b.2⟩
  have htr : IsTrans (α × ℚ) (fun a b => a.2 ≤ b.2) :=
    ⟨fun a b c hab hbc => le_trans hab hbc⟩
  exact List.sorted_insertionSort _ l

theorem sort_by_latency_perm {α : Type} (l : List (α × ℚ)) :
    (sort_by_latency l).Perm l :=
  List.perm_insertionSort _ l

end Pingco

namespace Pingco

/-! ## Lemmas: UTF-8 codec -/

theorem u8Step_rest_length (b : Nat) (bs : List Nat) :
    (u8Step b bs).2.length ≤ bs.length := by
  unfold u8Step
  repeat' split
  all_goals simp_all
  all_goals omega

theorem u8Ignore_nil (f : Nat) : u8Ignore f [] = [] := by
  cases f <;> rfl

theorem u8Ignore_fuel :
    ∀ (f1 f2 : Nat) (bs : List Nat), bs.length ≤ f1 → bs.length ≤ f2 →
      u8Ignore f1 bs = u8Ignore f2 bs := by
  intro f1
  induction f1 with
  | zero =>
    intro f2 bs h1 _
    rw [List.length_eq_zero.mp (Nat.le_zero.mp h1), u8Ignore_nil, u8Ignore_nil]
  | succ g1 ih =>
    intro f2 bs h1 h2
    match bs with
    | [] => rw [u8Ignore_nil, u8Ignore_nil]
    | b :: rest =>
      match f2 with
      | 0 => simp at h2
      | g2 + 1 =>
        simp only [List.length_cons, Nat.succ_le_succ_iff] at h1 h2
        rw [u8Ignore, u8Ignore]
        cases hstep : u8Step b rest with
        | mk e r =>
          cases e with
          | some v =>
            simp only
            have hr : r.length ≤ rest.length := by
              have := u8Step_rest_length b rest
              rw [hstep] at this
              exact this
            rw [ih g2 r (le_trans hr h1) (le_trans hr h2)]
          | none =>
            simp only
            exact ih g2 rest h1 h2

theorem u8Step_valid {b : Nat} {bs : List Nat} {v : Nat} {rest : List Nat}
    (h : u8Step b bs = (some v, rest)) : ValidCp v := by
  unfold u8Step at h
  unfold ValidCp
  repeat' split at h
  all_goals injection h with h1 h2
  all_goals try exact Option.noConfusion h1
  all_goals injection h1 with h3
  all_goals omega

theorem u8Ignore_valid :
    ∀ (f : Nat) (bs : List Nat) (v : Nat), v ∈ u8Ignore f bs → ValidCp v := by
  intro f
  induction f with
  | zero => intro bs v hv; simp [u8Ignore] at hv
  | succ g ih =>
    intro bs v hv
    match bs with
    | [] => simp [u8Ignore_nil] at hv
    | b :: rest =>
      rw [u8Ignore] at hv
      cases hstep : u8Step b rest with
      | mk e r =>
        rw [hstep] at hv
        cases e with
        | some w =>
          simp only at hv
          rcases List.mem_cons.mp hv with h | h
          · subst h; exact u8Step_valid hstep
          · exact ih r v h
        | none =>
          simp only at hv
          exact ih rest v hv

theorem utf8DecodeIgnore_valid (bs : PyBytes) :
    ∀ v ∈ utf8DecodeIgnore bs, ValidCp v :=
  fun v hv => u8Ignore_valid bs.length bs v hv

end Pingco

namespace Pingco

/-! ## Lemmas: UTF-8 roundtrip -/

theorem utf8EncodeChar_ne_nil (v : Nat) : utf8EncodeChar v ≠ [] := by
  unfold utf8EncodeChar
  repeat' split
  all_goals simp

theorem u8Step_of_encodeChar (v : Nat) (rest : List Nat) (hv : ValidCp v) :
    ∃ b bs, utf8EncodeChar v ++ rest = b :: bs ∧ u8Step b bs = (some v, rest) := by
  obtain ⟨hlt, hsur⟩ := hv
  by_cases h1 : v < 0x80
  · refine ⟨v, rest, ?_, ?_⟩
    · unfold utf8EncodeChar
      rw [if_pos h1]
      rfl
    · unfold u8Step
      rw [if_pos h1]
  · by_cases h2 : v < 0x800
    · refine ⟨0xC0 + v / 64, (0x80 + v % 64) :: rest, ?_, ?_⟩
      · unfold utf8EncodeChar
        rw [if_neg h1, if_pos h2]
        rfl
      · simp only [u8Step]
        rw [if_neg (by omega), if_pos (by constructor <;> omega),
          if_pos (by constructor <;> omega)]
        simp only [Prod.mk.injEq, Option.some.injEq]
        exact ⟨by omega, by trivial⟩
    · by_cases h3 : v < 0x10000
      · refine ⟨0xE0 + v / 4096, (0x80 + v / 64 % 64) :: (0x80 + v % 64) :: rest, ?_, ?_⟩
        · unfold utf8EncodeChar
          rw [if_neg h1, if_neg h2, if_pos h3]
          rfl
        · simp only [u8Step]
          rw [if_neg (by omega), if_neg (by omega), if_pos (by constructor <;> omega),
            if_pos (by constructor <;> omega)]
          simp only [Prod.mk.injEq, Option.some.injEq]
          exact ⟨by omega, by trivial⟩
      · refine ⟨0xF0 + v / 262144,
          (0x80 + v / 4096 % 64) :: (0x80 + v / 64 % 64) :: (0x80 + v % 64) :: rest, ?_, ?_⟩
        · unfold utf8EncodeChar
          rw [if_neg h1, if_neg h2, if_neg h3]
          rfl
        · simp only [u8Step]
          rw [if_neg (by omega), if_neg (by omega), if_neg (by omega),
            if_pos (by constructor <;> omega), if_pos (by constructor <;> omega)]
          simp only [Prod.mk.injEq, Option.some.injEq]
          exact ⟨by omega, by trivial⟩

theorem utf8DecodeIgnore_encode :
    ∀ (s : PyStr), (∀ v ∈ s, ValidCp v) → utf8DecodeIgnore (utf8Encode s) = s := by
  intro s
  induction s with
  | nil => intro _; rfl
  | cons v t ih =>
    intro hval
    have hv : ValidCp v := hval v (List.mem_cons_self _ _)
    have henc : utf8Encode (v :: t) = utf8EncodeChar v ++ utf8Encode t := by
      simp [utf8Encode]
    obtain ⟨b, bs, heq, hstep⟩ := u8Step_of_encodeChar v (utf8Encode t) hv
    unfold utf8DecodeIgnore
    rw [henc, heq, List.length_cons, u8Ignore, hstep]
    show v :: u8Ignore bs.length (utf8Encode t) = v :: t
    have hlen : (utf8Encode t).length ≤ bs.length := by
      have hl := congrArg List.length heq
      have hne := utf8EncodeChar_ne_nil v
      have : 1 ≤ (utf8EncodeChar v).length := by
        cases hchar : utf8EncodeChar v with
        | nil => exact absurd hchar hne
        | cons x xs => simp
      simp only [List.length_append, List.length_cons] at hl
      omega
    rw [u8Ignore_fuel bs.length (utf8Encode t).length (utf8Encode t) hlen le_rfl]
    have hih := ih (fun w hw => hval w (List.mem_cons_of_mem _ hw))
    unfold utf8DecodeIgnore at hih
    rw [hih]

theorem utf8Encode_ascii :
    ∀ (s : PyStr), (∀ v ∈ s, v < 0x80) → utf8Encode s = s := by
  intro s
  induction s with
  | nil => intro _; rfl
  | cons v t ih =>
    intro h
    have hv : v < 0x80 := h v (List.mem_cons_self _ _)
    have : utf8EncodeChar v = [v] := by
      unfold utf8EncodeChar
      rw [if_pos hv]
    simp [utf8Encode, this]
    have := ih (fun w hw => h w (List.mem_cons_of_mem _ hw))
    simpa [utf8Encode] using this

theorem utf8Decode_ascii :
    ∀ (s : PyStr), (∀ v ∈ s, v < 0x80) → utf8Decode s = some s := by
  intro s
  induction s with
  | nil => intro _; rfl
  | cons v t ih =>
    intro h
    have hv : v < 0x80 := h v (List.mem_cons_self _ _)
    unfold utf8Decode at *
    rw [List.length_cons, u8Strict]
    have hstep : u8Step v t = (some v, t) := by
      unfold u8Step
      rw [if_pos hv]
    rw [hstep]
    simp only
    rw [ih (fun w hw => h w (List.mem_cons_of_mem _ hw))]
    rfl

end Pingco

namespace Pingco

/-! ## Lemmas: smart_decode -/

theorem b64Loop_count_le : ∀ (fuel : Nat) (t : PyStr), (b64Loop fuel t).2 ≤ fuel := by
  intro fuel
  induction fuel with
  | zero => intro t; simp [b64Loop]
  | succ g ih =>
    intro t
    rw [b64Loop]
    by_cases hb : is_base64 t = true
    · rw [if_pos hb]
      cases hdec : b64decode (padB64 t) with
      | none => simp
      | some bytes =>
        simp only
        by_cases hch : pyStrip (utf8DecodeIgnore bytes) ≠ [] ∧
            pyStrip (utf8DecodeIgnore bytes) ≠ padB64 t
        · rw [if_pos hch]
          exact Nat.succ_le_succ (ih _)
        · rw [if_neg hch]
          simp
    · rw [if_neg hb]
      simp

theorem b64Loop_not_base64 (fuel : Nat) (t : PyStr) (h : is_base64 t = false) :
    b64Loop fuel t = (t, 0) := by
  cases fuel with
  | zero => rfl
  | succ g =>
    rw [b64Loop, if_neg (by simp [h])]

theorem b64Loop_decode_err (fuel : Nat) (t : PyStr) (h : is_base64 t = true)
    (hd : b64decode (padB64 t) = none) : b64Loop (fuel + 1) t = (padB64 t, 0) := by
  rw [b64Loop, if_pos h, hd]

theorem b64Loop_unchanged (fuel : Nat) (t : PyStr) (bytes : PyBytes)
    (h : is_base64 t = true) (hd : b64decode (padB64 t) = some bytes)
    (hu : pyStrip (utf8DecodeIgnore bytes) = [] ∨
      pyStrip (utf8DecodeIgnore bytes) = padB64 t) :
    b64Loop (fuel + 1) t = (padB64 t, 0) := by
  rw [b64Loop, if_pos h, hd]
  simp only
  rw [if_neg (by tauto)]

end Pingco

namespace Pingco

/-! ## Claim theorems: decoding, deduplication, ranking -/

/-- C4: `sort_by_latency` is a stable ascending sort by latency: for
every input list of (config, latency) pairs the output latencies are
non-decreasing, the output is a permutation of the input, and the
entries carrying any fixed latency keep their relative input order
(stability); in particular sorting `[(A,50.2),(B,10.1),(C,10.1)]`
yields `[B,C,A]`. -/
theorem claim_C4_sort_by_latency_stable :
    (∀ (α : Type) (l : List (α × ℚ)),
        (sort_by_latency l).Pairwise (fun a b => a.2 ≤ b.2) ∧
        (sort_by_latency l).Perm l ∧
        (∀ q : ℚ, (sort_by_latency l).filter (fun y => decide (y.2 = q)) =
          l.filter (fun y => decide (y.2 = q)))) ∧
    sort_by_latency [(pys "A", (50.2 : ℚ)), (pys "B", (10.1 : ℚ)), (pys "C", (10.1 : ℚ))] =
      [(pys "B", (10.1 : ℚ)), (pys "C", (10.1 : ℚ)), (pys "A", (50.2 : ℚ))] := by
  refine ⟨fun α l => ⟨sort_by_latency_pairwise l, sort_by_latency_perm l,
    fun q => sort_by_latency_filter q l⟩, ?_⟩
  norm_num [sort_by_latency, List.insertionSort, List.orderedInsert]

/-- C5: `remove_duplicates` returns a list with no duplicate strings, of
length at most the input's, that is a subsequence of the normalized
valid input lines (so surviving entries keep their first-seen relative
order), and equals the keep-first-occurrence deduplication of those
lines (first occurrence kept, later identical lines dropped). -/
theorem claim_C5_remove_duplicates_dedup :
    ∀ configs : List PyStr,
      (remove_duplicates configs).Nodup ∧
      (remove_duplicates configs).length ≤ configs.length ∧
      (remove_duplicates configs).Sublist (validNorm configs) ∧
      remove_duplicates configs = keepFirst (validNorm configs) := by
  intro configs
  refine ⟨removeDupGo_nodup configs [], removeDupGo_length_le configs [],
    removeDupGo_sublist_validNorm configs [], ?_⟩
  rw [remove_duplicates, removeDupGo_eq_keepFirst]
  congr 1
  simp

/-- C10: `remove_duplicates` filters as well as deduplicates: every
output entry is whitespace-stripped and starts with `vless://` or
`vmess://`; empty lines and lines with any other scheme are dropped even
on first occurrence, so the output can be strictly shorter than the
number of distinct inputs (the four pairwise-distinct input lines below
collapse to one). -/
theorem claim_C10_remove_duplicates_filters :
    (∀ (configs : List PyStr), ∀ x ∈ remove_duplicates configs,
        pyStrip x = x ∧ is_valid_config x = true) ∧
      remove_duplicates [pys "", pys "http://example.com", pys "vless://a@b:1",
        pys " vless://a@b:1 "] = [pys "vless://a@b:1"] := by
  constructor
  · intro configs x hx
    obtain ⟨hk, c, _, hxc⟩ := removeDupGo_mem_prop configs [] x hx
    have hvalid : is_valid_config x = true := by
      simp only [keepP, Bool.and_eq_true] at hk
      exact hk.2
    refine ⟨?_, hvalid⟩
    rw [hxc]
    exact pyStrip_idem c
  · decide

/-- Witness for C10 at a concrete input. -/
theorem claim_C10_witness :
    pys "vless://a@b:1" ∈ remove_duplicates [pys " vless://a@b:1 "] ∧
      (pyStrip (pys "vless://a@b:1") = pys "vless://a@b:1" ∧
        is_valid_config (pys "vless://a@b:1") = true) :=
  ⟨by decide,
   claim_C10_remove_duplicates_filters.1 [pys " vless://a@b:1 "] _ (by decide)⟩

/-- C7: `smart_decode` is idempotent on non-base64 input: if the
decoded, stripped text of `x` fails the base64 heuristic, then applying
`smart_decode` to the UTF-8 encoding of `smart_decode x` returns
`smart_decode x` unchanged. -/
theorem claim_C7_smart_decode_idem (x : PyBytes)
    (h : is_base64 (pyStrip (utf8DecodeIgnore x)) = false) :
    smart_decode (utf8Encode (smart_decode x)) = smart_decode x := by
  have hx : smart_decode x = pyStrip (utf8DecodeIgnore x) := by
    unfold smart_decode smart_decodeCount
    rw [b64Loop_not_base64 5 _ h]
  rw [hx]
  unfold smart_decode smart_decodeCount
  have hval : ∀ v ∈ pyStrip (utf8DecodeIgnore x), ValidCp v :=
    fun v hv => utf8DecodeIgnore_valid x v (mem_pyStrip hv)
  rw [utf8DecodeIgnore_encode _ hval, pyStrip_idem, b64Loop_not_base64 5 _ h]

/-- Witness for C7 at a concrete plain-text input. -/
theorem claim_C7_witness :
    is_base64 (pyStrip (utf8DecodeIgnore (pys "hello world"))) = false ∧
      smart_decode (utf8Encode (smart_decode (pys "hello world"))) =
        smart_decode (pys "hello world") :=
  ⟨by decide, claim_C7_smart_decode_idem (pys "hello world") (by decide)⟩

/-- C8: the `smart_decode` loop terminates for every byte input within
at most 5 decode iterations, and stops early when the heuristic fails
(text returned unchanged), when base64 decoding errors, or when the
decoded text is empty or identical to the (padded) current text. -/
theorem claim_C8_smart_decode_bounded :
    (∀ content : PyBytes, (smart_decodeCount content).2 ≤ 5) ∧
    (∀ (fuel : Nat) (t : PyStr), is_base64 t = false → b64Loop fuel t = (t, 0)) ∧
    (∀ (fuel : Nat) (t : PyStr), is_base64 t = true → b64decode (padB64 t) = none →
        b64Loop (fuel + 1) t = (padB64 t, 0)) ∧
    (∀ (fuel : Nat) (t : PyStr) (bytes : PyBytes), is_base64 t = true →
        b64decode (padB64 t) = some bytes →
        (pyStrip (utf8DecodeIgnore bytes) = [] ∨
          pyStrip (utf8DecodeIgnore bytes) = padB64 t) →
        b64Loop (fuel + 1) t = (padB64 t, 0)) :=
  ⟨fun _ => b64Loop_count_le 5 _, b64Loop_not_base64, b64Loop_decode_err,
   b64Loop_unchanged⟩

/-- Witness for C8: a plain-text input, a padding-error input (21
alphabet characters) and an input decoding to pure whitespace. -/
theorem claim_C8_witness :
    (smart_decodeCount (pys "hello")).2 ≤ 5 ∧
    b64Loop 5 (pys "hello") = (pys "hello", 0) ∧
    b64Loop 5 (pys "AAAAAAAAAAAAAAAAAAAAA") = (padB64 (pys "AAAAAAAAAAAAAAAAAAAAA"), 0) ∧
    b64Loop 5 (pys "ICAgICAgICAgICAgICAgICAgICAg") =
      (padB64 (pys "ICAgICAgICAgICAgICAgICAgICAg"), 0) :=
  ⟨claim_C8_smart_decode_bounded.1 _,
   claim_C8_smart_decode_bounded.2.1 5 _ (by decide),
   claim_C8_smart_decode_bounded.2.2.1 4 _ (by decide) (by decide),
   claim_C8_smart_decode_bounded.2.2.2 4 _ (List.replicate 21 32) (by decide) (by decide)
     (Or.inl (by decide))⟩

end Pingco

namespace Pingco

/-! ## Lemmas: base64 round trip and extract_ip_from_config -/

theorem b64Val_b64Char : ∀ v < 64, b64Val (b64Char v) = some v := by decide

theorem b64Char_ne_colon : ∀ v < 64, b64Char v ≠ 58 := by decide

theorem b64Char_ne_pad : ∀ v < 64, b64Char v ≠ 61 := by decide

theorem b64encode_no_colon :
    ∀ (bs : List Nat), (∀ b ∈ bs, b < 256) → ∀ x ∈ b64encode bs, x ≠ 58 := by
  intro bs
  induction bs using b64encode.induct with
  | case1 =>
    intro _ x hx
    simp [b64encode] at hx
  | case2 a =>
    intro hb x hx
    have ha : a < 256 := hb a (by simp)
    simp only [b64encode, List.mem_cons, List.not_mem_nil, or_false] at hx
    rcases hx with h | h | h | h
    · exact h ▸ b64Char_ne_colon _ (by omega)
    · exact h ▸ b64Char_ne_colon _ (by omega)
    · omega
    · omega
  | case3 a b =>
    intro hb x hx
    have ha : a < 256 := hb a (by simp)
    have hbb : b < 256 := hb b (by simp)
    simp only [b64encode, List.mem_cons, List.not_mem_nil, or_false] at hx
    rcases hx with h | h | h | h
    · exact h ▸ b64Char_ne_colon _ (by omega)
    · exact h ▸ b64Char_ne_colon _ (by omega)
    · exact h ▸ b64Char_ne_colon _ (by omega)
    · omega
  | case4 a b c rest ih =>
    intro hb x hx
    have ha : a < 256 := hb a (by simp)
    have hbb : b < 256 := hb b (by simp)
    have hc : c < 256 := hb c (by simp)
    simp only [b64encode, List.mem_cons] at hx
    rcases hx with h | h | h | h | h
    · exact h ▸ b64Char_ne_colon _ (by omega)
    · exact h ▸ b64Char_ne_colon _ (by omega)
    · exact h ▸ b64Char_ne_colon _ (by omega)
    · exact h ▸ b64Char_ne_colon _ (by omega)
    · exact ih (fun y hy => hb y (by simp [hy])) x h

end Pingco

namespace Pingco

theorem b64decode_b64encode :
    ∀ (bs : List Nat), (∀ b ∈ bs, b < 256) →
      b64decode (b64encode bs ++ pys "==") = some bs := by
  intro bs
  induction bs using b64encode.induct with
  | case1 =>
    intro _
    decide
  | case2 a =>
    intro hb
    have ha : a < 256 := hb a (by simp)
    have e1 : (b64Char (a / 4) == 61) = false :=
      beq_eq_false_iff_ne.mpr (b64Char_ne_pad _ (by omega))
    have e2 : (b64Char (a % 4 * 16) == 61) = false :=
      beq_eq_false_iff_ne.mpr (b64Char_ne_pad _ (by omega))
    unfold b64decode
    simp only [b64encode, List.cons_append, List.nil_append, List.takeWhile_cons,
      e1, e2, Bool.not_false, if_pos, Nat.reduceBEq, Bool.not_true,
      Bool.false_eq_true, if_false, List.filterMap_cons,
      b64Val_b64Char _ (show a / 4 < 64 by omega),
      b64Val_b64Char _ (show a % 4 * 16 < 64 by omega), List.filterMap_nil]
    simp only [b64Chunks, Option.some.injEq, List.cons.injEq, and_true]
    omega
  | case3 a b =>
    intro hb
    have ha : a < 256 := hb a (by simp)
    have hbb : b < 256 := hb b (by simp)
    have e1 : (b64Char (a / 4) == 61) = false :=
      beq_eq_false_iff_ne.mpr (b64Char_ne_pad _ (by omega))
    have e2 : (b64Char (a % 4 * 16 + b / 16) == 61) = false :=
      beq_eq_false_iff_ne.mpr (b64Char_ne_pad _ (by omega))
    have e3 : (b64Char (b % 16 * 4) == 61) = false :=
      beq_eq_false_iff_ne.mpr (b64Char_ne_pad _ (by omega))
    unfold b64decode
    simp only [b64encode, List.cons_append, List.nil_append, List.takeWhile_cons,
      e1, e2, e3, Bool.not_false, if_pos, Nat.reduceBEq, Bool.not_true,
      Bool.false_eq_true, if_false, List.filterMap_cons,
      b64Val_b64Char _ (show a / 4 < 64 by omega),
      b64Val_b64Char _ (show a % 4 * 16 + b / 16 < 64 by omega),
      b64Val_b64Char _ (show b % 16 * 4 < 64 by omega), List.filterMap_nil]
    simp only [b64Chunks, Option.some.injEq, List.cons.injEq, and_true]
    constructor
    · omega
    · omega
  | case4 a b c rest ih =>
    intro hb
    have ha : a < 256 := hb a (by simp)
    have hbb : b < 256 := hb b (by simp)
    have hc : c < 256 := hb c (by simp)
    have ihr := ih (fun y hy => hb y (by simp [hy]))
    have e1 : (b64Char (a / 4) == 61) = false :=
      beq_eq_false_iff_ne.mpr (b64Char_ne_pad _ (by omega))
    have e2 : (b64Char (a % 4 * 16 + b / 16) == 61) = false :=
      beq_eq_false_iff_ne.mpr (b64Char_ne_pad _ (by omega))
    have e3 : (b64Char (b % 16 * 4 + c / 64) == 61) = false :=
      beq_eq_false_iff_ne.mpr (b64Char_ne_pad _ (by omega))
    have e4 : (b64Char (c % 64) == 61) = false :=
      beq_eq_false_iff_ne.mpr (b64Char_ne_pad _ (by omega))
    unfold b64decode at ihr ⊢
    simp only [b64encode, List.cons_append, List.takeWhile_cons,
      e1, e2, e3, e4, Bool.not_false, if_pos, List.filterMap_cons,
      b64Val_b64Char _ (show a / 4 < 64 by omega),
      b64Val_b64Char _ (show a % 4 * 16 + b / 16 < 64 by omega),
      b64Val_b64Char _ (show b % 16 * 4 + c / 64 < 64 by omega),
      b64Val_b64Char _ (show c % 64 < 64 by omega)]
    rw [b64Chunks, ihr]
    simp only [Option.map_some', Option.some.injEq, List.cons.injEq]
    refine ⟨by omega, by omega, by omega, by trivial⟩

end Pingco

namespace Pingco

theorem isPrefixOf_mem {p l : PyStr} (h : p.isPrefixOf l = true) {x : Nat}
    (hx : x ∈ p) : x ∈ l :=
  ( List.isPrefixOf_iff_prefix.mp h).sublist.mem hx

theorem removeVmessGo_no_colon :
    ∀ (fuel : Nat) (l : PyStr), (∀ x ∈ l, x ≠ 58) → removeVmessGo fuel l = l := by
  intro fuel
  induction fuel with
  | zero =>
    intro l _
    cases l with
    | nil => rfl
    | cons c rest => rfl
  | succ g ih =>
    intro l hl
    match l with
    | [] => rfl
    | c :: rest =>
      rw [removeVmessGo]
      have hp : ¬(startsWithPat (pys "vmess://") (c :: rest) = true) := by
        intro hcon
        exact hl 58 (isPrefixOf_mem hcon (by decide)) rfl
      rw [if_neg hp]
      congr 1
      exact ih rest (fun x hx => hl x (List.mem_cons_of_mem _ hx))

theorem removeVmessGo_step (fuel : Nat) (e : PyStr) :
    removeVmessGo (fuel + 1) (pys "vmess://" ++ e) = removeVmessGo fuel e := by
  have hexp : pys "vmess://" ++ e = 118 :: (pys "mess://" ++ e) := rfl
  have hp : startsWithPat (pys "vmess://") (pys "vmess://" ++ e) = true :=
    List.isPrefixOf_iff_prefix.mpr (List.prefix_append _ _)
  rw [hexp] at hp
  rw [hexp, removeVmessGo, if_pos hp]
  congr 1

theorem removeVmessScheme_clean (e : PyStr) (he : ∀ x ∈ e, x ≠ 58) :
    removeVmessScheme (pys "vmess://" ++ e) = e := by
  unfold removeVmessScheme
  have hlen : (pys "vmess://" ++ e).length = (e.length + 7) + 1 := by
    rw [List.length_append]
    have h8 : (pys "vmess://").length = 8 := rfl
    omega
  rw [hlen, removeVmessGo_step, removeVmessGo_no_colon _ _ he]

end Pingco

namespace Pingco

/-! ## Claim theorem: extract_ip_from_config (vmess) -/

/-- C9: on a `vmess://` config, `extract_ip_from_config` base64-decodes
the payload and returns the value of the JSON field `"add"` (read by the
`"add"` regex): for every ASCII payload text `t` whose `"add"` capture is
`h`, extraction from `vmess://` followed by the base64 encoding of `t`
yields `h`. -/
theorem claim_C9_extract_vmess (t h : PyStr) (hascii : ∀ v ∈ t, v < 0x80)
    (hfind : addSearch t = some h) :
    extract_ip_from_config (pys "vmess://" ++ b64encode t) = some h := by
  have h256 : ∀ b ∈ t, b < 256 := fun b hb => lt_trans (hascii b hb) (by norm_num)
  have hnotvless :
      startsWithPat (pys "vless://") (pys "vmess://" ++ b64encode t) = false := by
    have hexp : pys "vmess://" ++ b64encode t =
        118 :: 109 :: (pys "ess://" ++ b64encode t) := rfl
    rw [hexp]
    show (pys "vless://").isPrefixOf _ = false
    rw [show pys "vless://" = 118 :: 108 :: pys "ess://" from rfl]
    simp [List.isPrefixOf]
  have hvmess :
      startsWithPat (pys "vmess://") (pys "vmess://" ++ b64encode t) = true :=
    List.isPrefixOf_iff_prefix.mpr (List.prefix_append _ _)
  unfold extract_ip_from_config
  rw [if_neg (by simp [hnotvless]), if_pos hvmess]
  rw [removeVmessScheme_clean _ (b64encode_no_colon t h256)]
  rw [b64decode_b64encode t h256]
  show (match utf8Decode t with
    | none => none
    | some decoded => addSearch decoded) = some h
  simp only [utf8Decode_ascii t hascii]
  exact hfind

/-- Witness for C9: the concrete payload
`\x7b"add":"9.9.9.9","port":"443","id":"u"\x7d` yields host `9.9.9.9`. -/
theorem claim_C9_witness :
    (∀ v ∈ pys "\x7b\"add\":\"9.9.9.9\",\"port\":\"443\",\"id\":\"u\"\x7d", v < 0x80) ∧
    addSearch (pys "\x7b\"add\":\"9.9.9.9\",\"port\":\"443\",\"id\":\"u\"\x7d") =
      some (pys "9.9.9.9") ∧
    extract_ip_from_config (pys "vmess://" ++
        b64encode (pys "\x7b\"add\":\"9.9.9.9\",\"port\":\"443\",\"id\":\"u\"\x7d")) =
      some (pys "9.9.9.9") :=
  ⟨by decide, by decide,
   claim_C9_extract_vmess _ _ (by decide) (by decide)⟩

end Pingco

namespace Pingco

/-! ## Lemmas: proxy lifecycle -/

theorem stop_proxy_idle (w : World) : stop_proxy initMState w = (initMState, w) := rfl

theorem stop_proxy_run (p f n : Nat) (ps fs : List Nat) :
    stop_proxy ⟨some p, some f⟩ ⟨n, p :: ps, f :: fs⟩ = (initMState, ⟨n, ps, fs⟩) := by
  unfold stop_proxy stopFileStep
  simp [List.erase_cons_head, initMState]

theorem stop_proxy_file_only (f n : Nat) (ps fs : List Nat) :
    stop_proxy ⟨none, some f⟩ ⟨n, ps, f :: fs⟩ = (initMState, ⟨n, ps, fs⟩) := by
  unfold stop_proxy stopFileStep
  simp [List.erase_cons_head, initMState]

theorem start_proxy_cases (env : StartEnv) (cfg : PyStr) (w : World) :
    (∃ n : Nat, start_proxy env cfg initMState w = (false, initMState, ⟨n, w.procs, w.files⟩)) ∨
    start_proxy env cfg initMState w =
      (true, ⟨some (w.nextId + 1), some w.nextId⟩,
        ⟨w.nextId + 2, (w.nextId + 1) :: w.procs, w.nextId :: w.files⟩) := by
  obtain ⟨xr, pk, pr⟩ := env
  obtain ⟨n0, ps, fs⟩ := w
  cases xr with
  | false => exact Or.inl ⟨n0, rfl⟩
  | true =>
    cases hpo : parseOutbound cfg with
    | none =>
      refine Or.inl ⟨n0, ?_⟩
      unfold start_proxy
      simp [hpo]
    | some ob =>
      unfold start_proxy startAfterFile startAfterPopen
      cases pk with
      | false =>
        refine Or.inl ⟨n0 + 1, ?_⟩
        simp [hpo, stop_proxy_file_only, initMState]
      | true =>
        cases pr with
        | true =>
          refine Or.inr ?_
          simp [hpo]
        | false =>
          refine Or.inl ⟨n0 + 2, ?_⟩
          simp [hpo, stop_proxy_run, initMState]

theorem start_proxy_true_iff (env : StartEnv) (cfg : PyStr) (w : World) :
    (start_proxy env cfg initMState w).1 = true ↔
      (env.xrayFound = true ∧ (parseOutbound cfg).isSome = true ∧
       env.popenOk = true ∧ env.portReady = true) := by
  obtain ⟨xr, pk, pr⟩ := env
  cases xr <;> cases pk <;> cases pr <;>
    cases hpo : parseOutbound cfg <;>
      simp [start_proxy, startAfterFile, startAfterPopen, hpo, stop_proxy_file_only,
        stop_proxy_run]

theorem initMState_process : initMState.process = none := rfl

theorem initMState_config_file : initMState.config_file = none := rfl

theorem reach_inv : ∀ (s : MState) (w : World), Reach s w →
    w.procs = s.process.toList ∧ w.files = s.config_file.toList := by
  intro s w h
  induction h with
  | init n => simp [initMState]
  | step_start env cfg s w hr hp hf ih =>
    obtain ⟨ihp, ihf⟩ := ih
    rw [hp] at ihp
    rw [hf] at ihf
    simp only [Option.toList] at ihp ihf
    have hs : s = initMState := by
      obtain ⟨sp, sf⟩ := s
      simp only at hp hf
      rw [hp, hf]
      rfl
    subst hs
    rcases start_proxy_cases env cfg w with ⟨n, heq⟩ | heq <;>
      rw [heq] <;> simp [initMState, ihp, ihf]
  | step_stop s w hr ih =>
    obtain ⟨ihp, ihf⟩ := ih
    obtain ⟨sp, sf⟩ := s
    obtain ⟨n, ps, fs⟩ := w
    simp only at ihp ihf
    cases sp <;> cases sf <;>
      simp_all [stop_proxy, stopFileStep, initMState, Option.toList,
        List.erase_cons_head]

end Pingco

namespace Pingco

/-! ## Claim theorems: proxy lifecycle and socket factory -/

/-- C1: for every reachable state of a `V2RayProxyManager` (never
started, started successfully, or start failed partway), `stop_proxy`
never raises (it is a total function), and afterwards the process
reference and the temp-file reference are both `None`, no process of
this manager is running and no temp file it created remains on disk, and
a second `stop_proxy` changes nothing (idempotence). -/
theorem claim_C1_stop_proxy_idempotent :
    ∀ (s : MState) (w : World), Reach s w →
      (stop_proxy s w).1.process = none ∧
      (stop_proxy s w).1.config_file = none ∧
      (stop_proxy s w).2.procs = [] ∧
      (stop_proxy s w).2.files = [] ∧
      stop_proxy (stop_proxy s w).1 (stop_proxy s w).2 = stop_proxy s w := by
  intro s w h
  obtain ⟨ihp, ihf⟩ := reach_inv s w h
  obtain ⟨sp, sf⟩ := s
  obtain ⟨n, ps, fs⟩ := w
  simp only at ihp ihf
  cases sp <;> cases sf <;>
    simp_all [stop_proxy, stopFileStep, initMState, Option.toList,
      List.erase_cons_head]

/-- Witness for C1: the state reached by one successful `start_proxy`
from a fresh manager. -/
theorem claim_C1_witness :
    (stop_proxy
        (start_proxy ⟨true, true, true⟩ (pys "vless://u@h:443") initMState ⟨0, [], []⟩).2.1
        (start_proxy ⟨true, true, true⟩ (pys "vless://u@h:443") initMState ⟨0, [], []⟩).2.2).1.process
        = none ∧
    (stop_proxy
        (start_proxy ⟨true, true, true⟩ (pys "vless://u@h:443") initMState ⟨0, [], []⟩).2.1
        (start_proxy ⟨true, true, true⟩ (pys "vless://u@h:443") initMState ⟨0, [], []⟩).2.2).1.config_file
        = none ∧
    (stop_proxy
        (start_proxy ⟨true, true, true⟩ (pys "vless://u@h:443") initMState ⟨0, [], []⟩).2.1
        (start_proxy ⟨true, true, true⟩ (pys "vless://u@h:443") initMState ⟨0, [], []⟩).2.2).2.procs
        = [] ∧
    (stop_proxy
        (start_proxy ⟨true, true, true⟩ (pys "vless://u@h:443") initMState ⟨0, [], []⟩).2.1
        (start_proxy ⟨true, true, true⟩ (pys "vless://u@h:443") initMState ⟨0, [], []⟩).2.2).2.files
        = [] ∧
    stop_proxy
        (stop_proxy
          (start_proxy ⟨true, true, true⟩ (pys "vless://u@h:443") initMState ⟨0, [], []⟩).2.1
          (start_proxy ⟨true, true, true⟩ (pys "vless://u@h:443") initMState ⟨0, [], []⟩).2.2).1
        (stop_proxy
          (start_proxy ⟨true, true, true⟩ (pys "vless://u@h:443") initMState ⟨0, [], []⟩).2.1
          (start_proxy ⟨true, true, true⟩ (pys "vless://u@h:443") initMState ⟨0, [], []⟩).2.2).2 =
      stop_proxy
        (start_proxy ⟨true, true, true⟩ (pys "vless://u@h:443") initMState ⟨0, [], []⟩).2.1
        (start_proxy ⟨true, true, true⟩ (pys "vless://u@h:443") initMState ⟨0, [], []⟩).2.2 :=
  claim_C1_stop_proxy_idempotent _ _
    (Reach.step_start ⟨true, true, true⟩ (pys "vless://u@h:443") initMState ⟨0, [], []⟩
      (Reach.init 0) rfl rfl)

/-- C2: from a stopped manager, `start_proxy` returns `True` exactly
when the binary was found, the config parsed, the process launched and
the local SOCKS port accepted a connection; on every failure it returns
`False` with the manager back in its initial state and no process or
temp file left behind; and for an unparsable config it returns `False`
with no side effect at all (no process ever spawned, no file created). -/
theorem claim_C2_start_proxy_teardown :
    ∀ (env : StartEnv) (cfg : PyStr) (w : World),
      ((start_proxy env cfg initMState w).1 = true ↔
        (env.xrayFound = true ∧ (parseOutbound cfg).isSome = true ∧
         env.popenOk = true ∧ env.portReady = true)) ∧
      ((start_proxy env cfg initMState w).1 = false →
        (start_proxy env cfg initMState w).2.1 = initMState ∧
        (start_proxy env cfg initMState w).2.2.procs = w.procs ∧
        (start_proxy env cfg initMState w).2.2.files = w.files) ∧
      (parseOutbound cfg = none →
        start_proxy env cfg initMState w = (false, initMState, w)) := by
  intro env cfg w
  refine ⟨start_proxy_true_iff env cfg w, ?_, ?_⟩
  · intro hfalse
    rcases start_proxy_cases env cfg w with ⟨n, heq⟩ | heq
    · rw [heq]
      exact ⟨rfl, rfl, rfl⟩
    · rw [heq] at hfalse
      simp at hfalse
  · intro hpo
    obtain ⟨xr, pk, pr⟩ := env
    cases xr <;> simp [start_proxy, hpo]

/-- Witness for C2: a successful start on a parsable vless config and a
no-side-effect failure on an unparsable one. -/
theorem claim_C2_witness :
    (start_proxy ⟨true, true, true⟩ (pys "vless://u@h:443") initMState ⟨0, [], []⟩).1 = true ∧
    start_proxy ⟨true, true, true⟩ (pys "hello") initMState ⟨0, [], []⟩ =
      (false, initMState, ⟨0, [], []⟩) :=
  ⟨(claim_C2_start_proxy_teardown ⟨true, true, true⟩ (pys "vless://u@h:443") ⟨0, [], []⟩).1.mpr
     ⟨rfl, by decide, rfl, rfl⟩,
   (claim_C2_start_proxy_teardown ⟨true, true, true⟩ (pys "hello") ⟨0, [], []⟩).2.2 rfl⟩

/-- C3: `test_config` stops the proxy on every exit path — start
failure, missing SOCKS support, request failure, and the
overall-deadline interrupt at any point — leaving no process and no
temp file of its manager behind (the world is exactly as before), with
the manager's process reference cleared; and it returns a latency only
when the proxy started, PySocks is present and nothing raised —
otherwise it returns `None` rather than raising (the model is a total
function). -/
theorem claim_C3_test_config_cleanup :
    ∀ (A : Type) (se : StartEnv) (ne : NetEnv) (cfg : PyStr) (v0 sockS : A) (w : World),
      (test_config A se ne cfg v0 sockS w).world.procs = w.procs ∧
      (test_config A se ne cfg v0 sockS w).world.files = w.files ∧
      (test_config A se ne cfg v0 sockS w).mgr.process = none ∧
      (test_config A se ne cfg v0 sockS w).latency =
        (if (start_proxy se cfg initMState w).1 = true ∧ ne.hasSocks = true ∧
            ne.raisePt = RaisePoint.noRaise then ne.reqLatency else none) := by
  intro A se ne cfg v0 sockS w
  obtain ⟨hs, hrq, hrp⟩ := ne
  rcases start_proxy_cases se cfg w with ⟨n, heq⟩ | heq <;>
    cases hrp <;> cases hs <;>
      simp [test_config, testWithProxy, heq, stop_proxy_idle, stop_proxy_run,
        initMState_process, initMState_config_file]

/-- C6: the global socket factory substituted to route a call through a
SOCKS proxy is restored to its original value `v0` on every exit path of
both `TelegramBot._make_request` and `RealPing.test_config` — success,
request exception, and deadline interrupt — so no later caller observes
an altered factory. -/
theorem claim_C6_socket_factory_restored :
    ∀ (A : Type) (v0 sockS : A) (hasProxy hasSocks : Bool) (req : Option Bool)
      (se : StartEnv) (ne : NetEnv) (cfg : PyStr) (w : World),
      (make_request A hasProxy hasSocks req v0 sockS).2 = v0 ∧
      (test_config A se ne cfg v0 sockS w).sockFact = v0 := by
  intro A v0 sockS hasProxy hasSocks req se ne cfg w
  constructor
  · cases hasProxy <;> cases hasSocks <;> cases req <;>
      simp [make_request, mrWithProxy]
  · obtain ⟨hs, hrq, hrp⟩ := ne
    rcases start_proxy_cases se cfg w with ⟨n, heq⟩ | heq <;>
      cases hrp <;> cases hs <;>
        simp [test_config, testWithProxy, heq]

end Pingco
